import Mathlib

/-!
Verification of the Common-Context Diff Summarizer from
`amplifier_module_hooks_concise_display`.

The definitions below are a shallow embedding of the Python functions
`_find_common_context`, `_render_diff_block` and `_truncate` from
`src/amplifier_module_hooks_concise_display/__init__.py`.  Python strings
are modelled as Lean `String`s (sequences of characters), Python lists as
Lean `List`s, and Python `int` as `Int` where negative values can occur
(slice arguments) and `Nat` where they cannot.  Python slice semantics,
including the negative-index behaviour of `l[-k:]` and `s[:k]`, are
modelled explicitly.
-/

namespace ConciseDisplay

/-- Embedding of Python `text.split("\n")` at the character-list level: the
separator is the single newline character, the empty list of characters
splits to `[[]]`, and every newline starts a fresh (initially empty) chunk. -/
def splitLinesChars : List Char → List (List Char)
  | [] => [[]]
  | c :: cs =>
    if c = '\n' then [] :: splitLinesChars cs
    else
      match splitLinesChars cs with
      | [] => [[c]]
      | l :: ls => (c :: l) :: ls

/-- Embedding of Python `text.split("\n")` on strings, as used by
`_render_diff_block` to turn `old_str` and `new_str` into line sequences. -/
def splitLines (text : String) : List String :=
  (splitLinesChars text.data).map String.mk

/-- Embedding of the first `while` loop of `_find_common_context`: walk the
two line lists in parallel from the front and count matching lines, stopping
at the first mismatch or at the end of either list. -/
def commonPrefixLen : List String → List String → Nat
  | [], _ => 0
  | _ :: _, [] => 0
  | a :: as, b :: bs => if a = b then commonPrefixLen as bs + 1 else 0

/-- Embedding of the second `while` loop of `_find_common_context`, applied
to the two line lists reversed: count matching lines from the front of the
reversed lists (i.e. from the back of the originals), stopping when the
fuel `k` (the bound `min_len - prefix_len`) runs out, at the first
mismatch, or at the end of either list. -/
def commonSuffixLenAux : List String → List String → Nat → Nat
  | _, _, 0 => 0
  | [], _, _ + 1 => 0
  | _ :: _, [], _ + 1 => 0
  | a :: as, b :: bs, k + 1 => if a = b then commonSuffixLenAux as bs k + 1 else 0

/-- The `prefix_len` local computed by `_find_common_context`. -/
def prefixLenOf (old_lines new_lines : List String) : Nat :=
  commonPrefixLen old_lines new_lines

/-- The `suffix_len` local computed by `_find_common_context`: the second
loop bounds the count by `min_len - prefix_len` so the suffix window never
overlaps the prefix window. -/
def suffixLenOf (old_lines new_lines : List String) : Nat :=
  commonSuffixLenAux old_lines.reverse new_lines.reverse
    (min old_lines.length new_lines.length - commonPrefixLen old_lines new_lines)

/-- Embedding of `_find_common_context`: returns
`(leading, old_changed, new_changed, trailing, [])`, with Python slices
`l[:p]` as `take p`, `l[n:]` as `drop n`, and `l[a:b]` as
`(take b).drop a`. -/
def findCommonContext (old_lines new_lines : List String) :
    List String × List String × List String × List String × List String :=
  let prefix_len := prefixLenOf old_lines new_lines
  let suffix_len := suffixLenOf old_lines new_lines
  let leading := old_lines.take prefix_len
  let trailing :=
    if suffix_len > 0 then old_lines.drop (old_lines.length - suffix_len) else []
  let old_end := if suffix_len > 0 then old_lines.length - suffix_len else old_lines.length
  let new_end := if suffix_len > 0 then new_lines.length - suffix_len else new_lines.length
  let old_changed := (old_lines.take old_end).drop prefix_len
  let new_changed := (new_lines.take new_end).drop prefix_len
  (leading, old_changed, new_changed, trailing, [])

/-- The `leading` component of `_find_common_context` applied to the split
lines of the two input strings of `_render_diff_block`. -/
def leadingContextOf (old_str new_str : String) : List String :=
  (findCommonContext (splitLines old_str) (splitLines new_str)).1

/-- The `old_changed` component of `_find_common_context` applied to the
split lines of the two input strings of `_render_diff_block`. -/
def oldChangedOf (old_str new_str : String) : List String :=
  (findCommonContext (splitLines old_str) (splitLines new_str)).2.1

/-- The `new_changed` component of `_find_common_context` applied to the
split lines of the two input strings of `_render_diff_block`. -/
def newChangedOf (old_str new_str : String) : List String :=
  (findCommonContext (splitLines old_str) (splitLines new_str)).2.2.1

/-- The `trailing` component of `_find_common_context` applied to the split
lines of the two input strings of `_render_diff_block`. -/
def trailingContextOf (old_str new_str : String) : List String :=
  (findCommonContext (splitLines old_str) (splitLines new_str)).2.2.2.1

/-- Embedding of Python `text.replace("\n", " ")`: the separator is a single
character, so the replacement is a character-wise map. -/
def replaceNewlines (text : String) : String :=
  String.mk (text.data.map fun c => if c = '\n' then ' ' else c)

/-- Embedding of Python `text.strip()`: drop whitespace characters from both
ends of the string. -/
def pyStrip (text : String) : String :=
  String.mk (((text.data.dropWhile Char.isWhitespace).reverse.dropWhile
    Char.isWhitespace).reverse)

/-- Embedding of the Python prefix slice `text[:k]` for an `int` bound `k`:
a negative `k` counts from the end of the string. -/
def pyTakeChars (text : String) (k : Int) : String :=
  if k < 0 then String.mk (text.data.take (text.data.length - k.natAbs))
  else String.mk (text.data.take k.toNat)

/-- Embedding of `_truncate`: replace newlines by spaces, strip surrounding
whitespace, return the result unchanged when it fits in `max_len`
characters, otherwise keep the slice `text[:max_len - 1]` and append the
one-character ellipsis. -/
def truncate (text : String) (max_len : Int) : String :=
  let text := pyStrip (replaceNewlines text)
  if (text.length : Int) ≤ max_len then text
  else pyTakeChars text (max_len - 1) ++ "…"

/-- Embedding of `_format_diff_line`: truncate to `max_len - 2` (accounting
for the prefix) and wrap in bold color markup. -/
def formatDiffLine (line pfx color : String) (max_len : Int) : String :=
  "[bold " ++ color ++ "]" ++ pfx ++ " " ++ truncate line (max_len - 2) ++
    "[/bold " ++ color ++ "]"

/-- Embedding of the Python suffix slice `l[-k:]` used by
`_render_diff_block` on the leading context: for `k = 0` the slice is
`l[0:]`, i.e. the whole list, not the empty list. -/
def pySliceLast {α : Type} (l : List α) (k : Nat) : List α :=
  if k = 0 then l else l.drop (l.length - k)

/-- The leading-context trimming step of `_render_diff_block`: when the
leading context exceeds the window, keep the slice `leading[-context_lines:]`. -/
def leadingShown (leading : List String) (context_lines : Nat) : List String :=
  if leading.length > context_lines then pySliceLast leading context_lines else leading

/-- The trailing-context trimming step of `_render_diff_block`: when the
trailing context exceeds the window, keep `trailing[:context_lines]`. -/
def trailingShown (trailing : List String) (context_lines : Nat) : List String :=
  if trailing.length > context_lines then trailing.take context_lines else trailing

/-- The `max_diff_lines` cap of `_render_diff_block`. -/
def maxDiffLines : Nat := 4

/-- An unchanged context line as formatted by `_render_diff_block`. -/
def contextLineOut (max_width : Nat) (line : String) : String :=
  "[dim]  " ++ truncate line ((max_width : Int) - 2) ++ "[/dim]"

/-- The deletion lines emitted by `_render_diff_block`: the first
`max_diff_lines` old changed lines, formatted with `-` in red. -/
def deletionsOut (old_changed : List String) (max_width : Nat) : List String :=
  (old_changed.take maxDiffLines).map fun line =>
    formatDiffLine line "-" "red" (max_width : Int)

/-- The addition lines emitted by `_render_diff_block`: the first
`max_diff_lines` new changed lines, formatted with `+` in green. -/
def additionsOut (new_changed : List String) (max_width : Nat) : List String :=
  (new_changed.take maxDiffLines).map fun line =>
    formatDiffLine line "+" "green" (max_width : Int)

/-- The deletion-side elision marker string of `_render_diff_block`. -/
def oldElisionMarker (k : Nat) : String :=
  "[red]  ... (+" ++ toString k ++ ")[/red]"

/-- The addition-side elision marker string of `_render_diff_block`. -/
def newElisionMarker (k : Nat) : String :=
  "[green]  ... (+" ++ toString k ++ ")[/green]"

/-- The deletion-side elision marker lines of `_render_diff_block`: one
marker when `len(old_changed) > max_diff_lines`, nothing otherwise. -/
def oldElisionOut (old_changed : List String) : List String :=
  if old_changed.length > maxDiffLines then
    [oldElisionMarker (old_changed.length - maxDiffLines)]
  else []

/-- The addition-side elision marker lines of `_render_diff_block`: one
marker when `len(new_changed) > max_diff_lines`, nothing otherwise. -/
def newElisionOut (new_changed : List String) : List String :=
  if new_changed.length > maxDiffLines then
    [newElisionMarker (new_changed.length - maxDiffLines)]
  else []

/-- Embedding of `_render_diff_block`: split both strings into lines, run
`_find_common_context`, trim the context windows, cap the changed lines on
each side, and emit the display lines in source order: leading context,
deletions, deletion elision marker, additions, addition elision marker,
trailing context. -/
def renderDiffBlock (old_str new_str : String) (max_width context_lines : Nat) :
    List String :=
  (leadingShown (leadingContextOf old_str new_str) context_lines).map
      (contextLineOut max_width)
    ++ deletionsOut (oldChangedOf old_str new_str) max_width
    ++ oldElisionOut (oldChangedOf old_str new_str)
    ++ additionsOut (newChangedOf old_str new_str) max_width
    ++ newElisionOut (newChangedOf old_str new_str)
    ++ (trailingShown (trailingContextOf old_str new_str) context_lines).map
      (contextLineOut max_width)

/-- The forward walk never counts past the end of either list. -/
theorem commonPrefixLen_le (a b : List String) :
    commonPrefixLen a b ≤ min a.length b.length := by
  induction a generalizing b with
  | nil => simp [commonPrefixLen]
  | cons x xs ih =>
    cases b with
    | nil => simp [commonPrefixLen]
    | cons y ys =>
      by_cases hxy : x = y
      · have := ih ys
        simp only [commonPrefixLen, if_pos hxy, List.length_cons]
        omega
      · simp [commonPrefixLen, hxy]

/-- Every index below the counted prefix length holds equal lines. -/
theorem commonPrefixLen_spec (a b : List String) :
    ∀ i < commonPrefixLen a b, a[i]? = b[i]? := by
  induction a generalizing b with
  | nil => simp [commonPrefixLen]
  | cons x xs ih =>
    cases b with
    | nil => simp [commonPrefixLen]
    | cons y ys =>
      intro i hi
      by_cases hxy : x = y
      · cases i with
        | zero => simp [hxy]
        | succ i' =>
          simp only [List.getElem?_cons_succ]
          apply ih
          simp only [commonPrefixLen, if_pos hxy] at hi
          omega
      · simp [commonPrefixLen, hxy] at hi

/-- The forward walk is maximal: any in-range index bound below which the
two lists agree is at most the counted prefix length. -/
theorem commonPrefixLen_max (a b : List String) (q : Nat)
    (hq : q ≤ min a.length b.length) (hpt : ∀ i < q, a[i]? = b[i]?) :
    q ≤ commonPrefixLen a b := by
  induction a generalizing b q with
  | nil => simp at hq; omega
  | cons x xs ih =>
    cases b with
    | nil => simp at hq; omega
    | cons y ys =>
      cases q with
      | zero => exact Nat.zero_le _
      | succ q' =>
        have h0 := hpt 0 (Nat.succ_pos _)
        simp only [List.getElem?_cons_zero, Option.some.injEq] at h0
        simp only [commonPrefixLen, if_pos h0]
        have : q' ≤ commonPrefixLen xs ys := by
          apply ih
          · simp at hq ⊢; omega
          · intro i hi
            have := hpt (i + 1) (by omega)
            simpa using this
        omega

/-- On identical lists the forward walk counts the whole list. -/
theorem commonPrefixLen_self (a : List String) : commonPrefixLen a a = a.length := by
  induction a with
  | nil => simp [commonPrefixLen]
  | cons x xs ih => simp [commonPrefixLen, ih]

/-- The bounded backward walk never exceeds its fuel. -/
theorem commonSuffixLenAux_le (a b : List String) (k : Nat) :
    commonSuffixLenAux a b k ≤ k := by
  induction a generalizing b k with
  | nil => cases k <;> simp [commonSuffixLenAux]
  | cons x xs ih =>
    cases k with
    | zero => simp [commonSuffixLenAux]
    | succ k' =>
      cases b with
      | nil => simp [commonSuffixLenAux]
      | cons y ys =>
        by_cases hxy : x = y
        · have := ih ys k'
          simp only [commonSuffixLenAux, if_pos hxy]
          omega
        · simp [commonSuffixLenAux, hxy]

/-- Every index below the bounded backward count holds equal lines. -/
theorem commonSuffixLenAux_spec (a b : List String) (k : Nat) :
    ∀ j < commonSuffixLenAux a b k, a[j]? = b[j]? := by
  induction a generalizing b k with
  | nil => intro j hj; cases k <;> simp [commonSuffixLenAux] at hj
  | cons x xs ih =>
    intro j hj
    cases k with
    | zero => simp [commonSuffixLenAux] at hj
    | succ k' =>
      cases b with
      | nil => simp [commonSuffixLenAux] at hj
      | cons y ys =>
        by_cases hxy : x = y
        · cases j with
          | zero => simp [hxy]
          | succ j' =>
            simp only [List.getElem?_cons_succ]
            apply ih ys k'
            simp only [commonSuffixLenAux, if_pos hxy] at hj
            omega
        · simp [commonSuffixLenAux, hxy] at hj

/-- The bounded backward walk is maximal among in-range counts within the
fuel bound. -/
theorem commonSuffixLenAux_max (a b : List String) (k q : Nat)
    (hk : q ≤ k) (ha : q ≤ a.length) (hb : q ≤ b.length)
    (hpt : ∀ j < q, a[j]? = b[j]?) : q ≤ commonSuffixLenAux a b k := by
  induction a generalizing b k q with
  | nil => simp at ha; omega
  | cons x xs ih =>
    cases q with
    | zero => exact Nat.zero_le _
    | succ q' =>
      cases k with
      | zero => omega
      | succ k' =>
        cases b with
        | nil => simp at hb
        | cons y ys =>
          have h0 := hpt 0 (Nat.succ_pos _)
          simp only [List.getElem?_cons_zero, Option.some.injEq] at h0
          simp only [commonSuffixLenAux, if_pos h0]
          have : q' ≤ commonSuffixLenAux xs ys k' := by
            apply ih
            · omega
            · simpa using ha
            · simpa using hb
            · intro j hj
              have := hpt (j + 1) (by omega)
              simpa using this
          omega

/-- Lists agreeing pointwise (via optional indexing) below `n` have equal
`n`-prefixes. -/
theorem take_eq_of_getElem? {α : Type} (a b : List α) (n : Nat)
    (h : ∀ i < n, a[i]? = b[i]?) : a.take n = b.take n := by
  apply List.ext_getElem?
  intro i
  rw [List.getElem?_take, List.getElem?_take]
  by_cases hi : i < n
  · simp only [if_pos hi]
    exact h i hi
  · simp [hi]

/-- Splitting a list at `p` and `e` with `p ≤ e` and reassembling the three
slices gives back the list. -/
theorem take_middle_drop {α : Type} (l : List α) (p e : Nat) (hpe : p ≤ e) :
    l.take p ++ ((l.take e).drop p ++ l.drop e) = l := by
  have h1 : (l.take e).take p = l.take p := by
    rw [List.take_take]
    congr 1
    omega
  calc l.take p ++ ((l.take e).drop p ++ l.drop e)
      = ((l.take e).take p ++ (l.take e).drop p) ++ l.drop e := by
        rw [h1, List.append_assoc]
    _ = l.take e ++ l.drop e := by rw [List.take_append_drop]
    _ = l := List.take_append_drop e l

/-- The computed prefix length is bounded by the shorter list. -/
theorem prefixLenOf_le (old_lines new_lines : List String) :
    prefixLenOf old_lines new_lines ≤ min old_lines.length new_lines.length :=
  commonPrefixLen_le old_lines new_lines

/-- The computed suffix length is bounded by `min_len - prefix_len`. -/
theorem suffixLenOf_le (old_lines new_lines : List String) :
    suffixLenOf old_lines new_lines ≤
      min old_lines.length new_lines.length - prefixLenOf old_lines new_lines :=
  commonSuffixLenAux_le _ _ _

/-- The computed prefix window holds equal lines pointwise. -/
theorem prefixLenOf_spec (old_lines new_lines : List String) :
    ∀ i < prefixLenOf old_lines new_lines, old_lines[i]? = new_lines[i]? :=
  commonPrefixLen_spec old_lines new_lines

/-- The computed suffix window holds equal lines pointwise, indexing both
lists from their respective ends. -/
theorem suffixLenOf_spec (old_lines new_lines : List String) :
    ∀ j < suffixLenOf old_lines new_lines,
      old_lines[old_lines.length - 1 - j]? = new_lines[new_lines.length - 1 - j]? := by
  intro j hj
  have hle := suffixLenOf_le old_lines new_lines
  have hjo : j < old_lines.length := by
    have := Nat.min_le_left old_lines.length new_lines.length
    omega
  have hjn : j < new_lines.length := by
    have := Nat.min_le_right old_lines.length new_lines.length
    omega
  have h := commonSuffixLenAux_spec old_lines.reverse new_lines.reverse
    (min old_lines.length new_lines.length - commonPrefixLen old_lines new_lines) j hj
  rwa [List.getElem?_reverse hjo, List.getElem?_reverse hjn] at h

/-- The suffix windows of the two lists hold the same lines: dropping all
but the last `suffix_len` elements gives the same list on both sides. -/
theorem suffix_drop_eq (old_lines new_lines : List String) :
    old_lines.drop (old_lines.length - suffixLenOf old_lines new_lines) =
      new_lines.drop (new_lines.length - suffixLenOf old_lines new_lines) := by
  have h : old_lines.reverse.take (suffixLenOf old_lines new_lines) =
      new_lines.reverse.take (suffixLenOf old_lines new_lines) :=
    take_eq_of_getElem? _ _ _ (commonSuffixLenAux_spec _ _ _)
  have ho := congrArg List.reverse h
  rwa [List.take_reverse, List.take_reverse, List.reverse_reverse,
    List.reverse_reverse] at ho

/-- The prefix windows of the two lists hold the same lines. -/
theorem prefix_take_eq (old_lines new_lines : List String) :
    old_lines.take (prefixLenOf old_lines new_lines) =
      new_lines.take (prefixLenOf old_lines new_lines) :=
  take_eq_of_getElem? _ _ _ (prefixLenOf_spec old_lines new_lines)

/-- For a window of at least one line, the trimmed leading context has
exactly `min available window` lines. -/
theorem leadingShown_length (l : List String) (c : Nat) (hc : 1 ≤ c) :
    (leadingShown l c).length = min l.length c := by
  by_cases h : l.length > c
  · have hc0 : ¬ c = 0 := by omega
    simp only [leadingShown, if_pos h, pySliceLast, if_neg hc0, List.length_drop]
    omega
  · simp only [leadingShown, if_neg h]
    omega

/-- The trimmed trailing context has exactly `min available window` lines. -/
theorem trailingShown_length (l : List String) (c : Nat) :
    (trailingShown l c).length = min l.length c := by
  by_cases h : l.length > c
  · simp only [trailingShown, if_pos h, List.length_take]
    omega
  · simp only [trailingShown, if_neg h]
    omega

/-- The character-level line splitter never returns an empty list of
chunks. -/
theorem splitLinesChars_length_pos (l : List Char) : 0 < (splitLinesChars l).length := by
  induction l with
  | nil => simp [splitLinesChars]
  | cons c cs ih =>
    by_cases h : c = '\n'
    · simp [splitLinesChars, h]
    · simp only [splitLinesChars, if_neg h]
      cases hcs : splitLinesChars cs with
      | nil => simp
      | cons x xs => simp

/-- Each elision-marker segment holds at most one line. -/
theorem oldElisionOut_length_le (old_changed : List String) :
    (oldElisionOut old_changed).length ≤ 1 := by
  by_cases h : old_changed.length > maxDiffLines <;> simp [oldElisionOut, h]

/-- Each elision-marker segment holds at most one line. -/
theorem newElisionOut_length_le (new_changed : List String) :
    (newElisionOut new_changed).length ≤ 1 := by
  by_cases h : new_changed.length > maxDiffLines <;> simp [newElisionOut, h]

/-- The deletion segment holds at most `max_diff_lines` lines. -/
theorem deletionsOut_length_le (old_changed : List String) (mw : Nat) :
    (deletionsOut old_changed mw).length ≤ maxDiffLines := by
  simp [deletionsOut, List.length_take]

/-- The addition segment holds at most `max_diff_lines` lines. -/
theorem additionsOut_length_le (new_changed : List String) (mw : Nat) :
    (additionsOut new_changed mw).length ≤ maxDiffLines := by
  simp [additionsOut, List.length_take]

/-- C1: Round-trip law: for every pair of line sequences, the four parts
returned by `_find_common_context` reassemble exactly — leading context,
old changed lines and trailing context concatenate to the old lines, and
leading context, new changed lines and trailing context concatenate to the
new lines, even though both context windows are sliced from the old
lines. -/
theorem round_trip_law (old_lines new_lines : List String) :
    (findCommonContext old_lines new_lines).1 ++
        ((findCommonContext old_lines new_lines).2.1 ++
          (findCommonContext old_lines new_lines).2.2.2.1) = old_lines ∧
    (findCommonContext old_lines new_lines).1 ++
        ((findCommonContext old_lines new_lines).2.2.1 ++
          (findCommonContext old_lines new_lines).2.2.2.1) = new_lines := by
  have hp := prefixLenOf_le old_lines new_lines
  have hs := suffixLenOf_le old_lines new_lines
  have hminl := Nat.min_le_left old_lines.length new_lines.length
  have hminr := Nat.min_le_right old_lines.length new_lines.length
  have hpre := prefix_take_eq old_lines new_lines
  have hsuf := suffix_drop_eq old_lines new_lines
  simp only [findCommonContext]
  by_cases hs0 : suffixLenOf old_lines new_lines = 0
  · simp only [hs0, gt_iff_lt, Nat.lt_irrefl, if_false, List.take_length,
      List.append_nil]
    constructor
    · exact List.take_append_drop _ _
    · rw [hpre]
      exact List.take_append_drop _ _
  · have hpos : suffixLenOf old_lines new_lines > 0 := by omega
    simp only [gt_iff_lt, if_pos hpos]
    constructor
    · exact take_middle_drop old_lines _ _ (by omega)
    · rw [hpre, hsuf]
      exact take_middle_drop new_lines _ _ (by omega)

/-- C2: Maximality of the common windows: the `prefix_len` computed by
`_find_common_context` is the largest `p ≤ min(len old, len new)` below
which the two line lists agree pointwise, and the computed `suffix_len` is
the largest `s ≤ min(len old, len new) - prefix_len` such that the last `s`
lines of the two lists agree pointwise from the ends. -/
theorem common_window_maximality (old_lines new_lines : List String) :
    (prefixLenOf old_lines new_lines ≤ min old_lines.length new_lines.length ∧
      (∀ i < prefixLenOf old_lines new_lines, old_lines[i]? = new_lines[i]?) ∧
      ∀ q ≤ min old_lines.length new_lines.length,
        (∀ i < q, old_lines[i]? = new_lines[i]?) →
          q ≤ prefixLenOf old_lines new_lines) ∧
    (suffixLenOf old_lines new_lines ≤
        min old_lines.length new_lines.length - prefixLenOf old_lines new_lines ∧
      (∀ j < suffixLenOf old_lines new_lines,
        old_lines[old_lines.length - 1 - j]? =
          new_lines[new_lines.length - 1 - j]?) ∧
      ∀ q ≤ min old_lines.length new_lines.length - prefixLenOf old_lines new_lines,
        (∀ j < q, old_lines[old_lines.length - 1 - j]? =
          new_lines[new_lines.length - 1 - j]?) →
          q ≤ suffixLenOf old_lines new_lines) := by
  have hminl := Nat.min_le_left old_lines.length new_lines.length
  have hminr := Nat.min_le_right old_lines.length new_lines.length
  refine ⟨⟨prefixLenOf_le _ _, prefixLenOf_spec _ _, ?_⟩,
    ⟨suffixLenOf_le _ _, suffixLenOf_spec _ _, ?_⟩⟩
  · intro q hq hpt
    exact commonPrefixLen_max old_lines new_lines q hq hpt
  · intro q hq hpt
    apply commonSuffixLenAux_max
    · exact hq
    · simpa using by omega
    · simpa using by omega
    · intro j hj
      have hjo : j < old_lines.length := by omega
      have hjn : j < new_lines.length := by omega
      rw [List.getElem?_reverse hjo, List.getElem?_reverse hjn]
      exact hpt j hj

/-- Witness for C2 at concrete inputs: the maximality clauses force the
computed prefix length of two lists agreeing on their first two lines to be
at least 2, and the computed suffix length of two lists agreeing on their
last two lines to be at least 2. -/
theorem common_window_maximality_witness :
    2 ≤ prefixLenOf ["a", "b", "c"] ["a", "b", "x"] ∧
    2 ≤ suffixLenOf ["a", "b", "c"] ["z", "b", "c"] :=
  ⟨(common_window_maximality ["a", "b", "c"] ["a", "b", "x"]).1.2.2 2
      (by decide) (by decide),
    (common_window_maximality ["a", "b", "c"] ["z", "b", "c"]).2.2.2 2
      (by decide) (by decide)⟩

/-- C3: No-overlap invariant: the prefix and suffix lengths computed by
`_find_common_context` together never exceed the length of the shorter
line list. -/
theorem no_overlap_invariant (old_lines new_lines : List String) :
    prefixLenOf old_lines new_lines + suffixLenOf old_lines new_lines ≤
      min old_lines.length new_lines.length := by
  have h1 := prefixLenOf_le old_lines new_lines
  have h2 := suffixLenOf_le old_lines new_lines
  omega

/-- C4: Identity: `_find_common_context` applied to a pair of identical
line lists puts every line in the leading context and leaves the changed
regions and the trailing context empty; in particular `_render_diff_block`
on two empty strings (each splitting to `[""]`) yields a plan with one
empty leading-context line and no changed lines. -/
theorem split_context_identity :
    (∀ x : List String, findCommonContext x x = (x, [], [], [], [])) ∧
    renderDiffBlock "" "" 60 2 = ["[dim]  [/dim]"] := by
  constructor
  · intro x
    have hp : prefixLenOf x x = x.length := commonPrefixLen_self x
    have hs : suffixLenOf x x = 0 := by
      unfold suffixLenOf
      rw [commonPrefixLen_self]
      simp [commonSuffixLenAux]
    simp [findCommonContext, hp, hs, List.take_length, List.drop_length]
  · decide

/-- C5: Elision accounting in `_render_diff_block`: on each side
independently, when the changed lines exceed the cap `max_diff_lines`
exactly the first `max_diff_lines` lines are kept and one elision marker is
emitted carrying the strictly positive count `len - max_diff_lines`; when
they do not exceed the cap, all lines are kept and no marker is emitted.
The final conjunct records that the output is exactly these segments in
source order. -/
theorem elision_accounting (old_str new_str : String) (mw cl : Nat) :
    (maxDiffLines < (oldChangedOf old_str new_str).length →
      oldElisionOut (oldChangedOf old_str new_str) =
          [oldElisionMarker ((oldChangedOf old_str new_str).length - maxDiffLines)] ∧
        0 < (oldChangedOf old_str new_str).length - maxDiffLines ∧
        deletionsOut (oldChangedOf old_str new_str) mw =
          ((oldChangedOf old_str new_str).take maxDiffLines).map
            (fun line => formatDiffLine line "-" "red" (mw : Int)) ∧
        (deletionsOut (oldChangedOf old_str new_str) mw).length = maxDiffLines) ∧
    ((oldChangedOf old_str new_str).length ≤ maxDiffLines →
      oldElisionOut (oldChangedOf old_str new_str) = [] ∧
      deletionsOut (oldChangedOf old_str new_str) mw =
        (oldChangedOf old_str new_str).map
          (fun line => formatDiffLine line "-" "red" (mw : Int))) ∧
    (maxDiffLines < (newChangedOf old_str new_str).length →
      newElisionOut (newChangedOf old_str new_str) =
          [newElisionMarker ((newChangedOf old_str new_str).length - maxDiffLines)] ∧
        0 < (newChangedOf old_str new_str).length - maxDiffLines ∧
        additionsOut (newChangedOf old_str new_str) mw =
          ((newChangedOf old_str new_str).take maxDiffLines).map
            (fun line => formatDiffLine line "+" "green" (mw : Int)) ∧
        (additionsOut (newChangedOf old_str new_str) mw).length = maxDiffLines) ∧
    ((newChangedOf old_str new_str).length ≤ maxDiffLines →
      newElisionOut (newChangedOf old_str new_str) = [] ∧
      additionsOut (newChangedOf old_str new_str) mw =
        (newChangedOf old_str new_str).map
          (fun line => formatDiffLine line "+" "green" (mw : Int))) ∧
    renderDiffBlock old_str new_str mw cl =
      (leadingShown (leadingContextOf old_str new_str) cl).map (contextLineOut mw)
        ++ deletionsOut (oldChangedOf old_str new_str) mw
        ++ oldElisionOut (oldChangedOf old_str new_str)
        ++ additionsOut (newChangedOf old_str new_str) mw
        ++ newElisionOut (newChangedOf old_str new_str)
        ++ (trailingShown (trailingContextOf old_str new_str) cl).map
          (contextLineOut mw) := by
  refine ⟨fun h => ⟨?_, by omega, rfl, ?_⟩, fun h => ⟨?_, ?_⟩,
    fun h => ⟨?_, by omega, rfl, ?_⟩, fun h => ⟨?_, ?_⟩, rfl⟩
  · simp [oldElisionOut, h]
  · simp only [deletionsOut, List.length_map, List.length_take]
    omega
  · simp [oldElisionOut, Nat.not_lt.mpr h]
  · simp only [deletionsOut]
    rw [List.take_of_length_le h]
  · simp [newElisionOut, h]
  · simp only [additionsOut, List.length_map, List.length_take]
    omega
  · simp [newElisionOut, Nat.not_lt.mpr h]
  · simp only [additionsOut]
    rw [List.take_of_length_le h]

/-- Witness for C5 at concrete inputs: six deleted lines against seven
added lines yield markers counting 2 and 3 elided lines. -/
theorem elision_accounting_witness :
    maxDiffLines < (oldChangedOf "a\nb\nc\nd\ne\nf" "u\nv\nw\nx\ny\nz\nq").length ∧
    oldElisionOut (oldChangedOf "a\nb\nc\nd\ne\nf" "u\nv\nw\nx\ny\nz\nq") =
      [oldElisionMarker
        ((oldChangedOf "a\nb\nc\nd\ne\nf" "u\nv\nw\nx\ny\nz\nq").length -
          maxDiffLines)] ∧
    0 < (oldChangedOf "a\nb\nc\nd\ne\nf" "u\nv\nw\nx\ny\nz\nq").length -
      maxDiffLines ∧
    maxDiffLines < (newChangedOf "a\nb\nc\nd\ne\nf" "u\nv\nw\nx\ny\nz\nq").length ∧
    newElisionOut (newChangedOf "a\nb\nc\nd\ne\nf" "u\nv\nw\nx\ny\nz\nq") =
      [newElisionMarker
        ((newChangedOf "a\nb\nc\nd\ne\nf" "u\nv\nw\nx\ny\nz\nq").length -
          maxDiffLines)] :=
  ⟨by decide,
    ((elision_accounting "a\nb\nc\nd\ne\nf" "u\nv\nw\nx\ny\nz\nq" 60 2).1
      (by decide)).1,
    ((elision_accounting "a\nb\nc\nd\ne\nf" "u\nv\nw\nx\ny\nz\nq" 60 2).1
      (by decide)).2.1,
    by decide,
    ((elision_accounting "a\nb\nc\nd\ne\nf" "u\nv\nw\nx\ny\nz\nq" 60 2).2.2.1
      (by decide)).1⟩

/-- C7: Empty-text splitting: splitting any text on a newline never
produces an empty line list — the empty string splits to `[""]` — and
consequently on inputs `""` and `"hello"` the split yields prefix length 0,
suffix length 0, old changed `[""]` and new changed `["hello"]`. -/
theorem empty_text_splitting :
    (∀ text : String, 0 < (splitLines text).length) ∧
    splitLines "" = [""] ∧
    prefixLenOf (splitLines "") (splitLines "hello") = 0 ∧
    suffixLenOf (splitLines "") (splitLines "hello") = 0 ∧
    oldChangedOf "" "hello" = [""] ∧
    newChangedOf "" "hello" = ["hello"] := by
  refine ⟨fun text => ?_, by decide, by decide, by decide, by decide, by decide⟩
  simp only [splitLines, List.length_map]
  exact splitLinesChars_length_pos _

/-- Counterexample to C6 as stated: with `context_lines = 0` and a
non-empty leading context, `_render_diff_block` keeps every leading line
(the Python slice `leading[-0:]` is the whole list), not the last 0
lines. -/
theorem context_window_truncation_cex :
    0 < (leadingContextOf "a\nb\nX" "a\nb\nY").length ∧
    leadingShown (leadingContextOf "a\nb\nX" "a\nb\nY") 0 ≠
      (leadingContextOf "a\nb\nX" "a\nb\nY").drop
        ((leadingContextOf "a\nb\nX" "a\nb\nY").length - 0) := by decide

/-- C6 (amended): Context-window truncation for every `context_lines ≥ 1`:
when the leading context exceeds the window exactly its last
`context_lines` lines are shown, when the trailing context exceeds the
window exactly its first `context_lines` lines are shown, and the output
consists of exactly the six segments in source order, so no elision marker
accompanies the dropped context lines.  (At `context_lines = 0` the code
keeps all leading lines, because the Python slice `leading[-0:]` is the
whole list.) -/
theorem context_window_truncation (old_str new_str : String) (mw cl : Nat)
    (hcl : 1 ≤ cl) :
    (cl < (leadingContextOf old_str new_str).length →
      leadingShown (leadingContextOf old_str new_str) cl =
          (leadingContextOf old_str new_str).drop
            ((leadingContextOf old_str new_str).length - cl) ∧
        (leadingShown (leadingContextOf old_str new_str) cl).length = cl) ∧
    (cl < (trailingContextOf old_str new_str).length →
      trailingShown (trailingContextOf old_str new_str) cl =
          (trailingContextOf old_str new_str).take cl ∧
        (trailingShown (trailingContextOf old_str new_str) cl).length = cl) ∧
    renderDiffBlock old_str new_str mw cl =
      (leadingShown (leadingContextOf old_str new_str) cl).map (contextLineOut mw)
        ++ deletionsOut (oldChangedOf old_str new_str) mw
        ++ oldElisionOut (oldChangedOf old_str new_str)
        ++ additionsOut (newChangedOf old_str new_str) mw
        ++ newElisionOut (newChangedOf old_str new_str)
        ++ (trailingShown (trailingContextOf old_str new_str) cl).map
          (contextLineOut mw) := by
  refine ⟨fun h => ⟨?_, ?_⟩, fun h => ⟨?_, ?_⟩, rfl⟩
  · simp only [leadingShown, if_pos h, pySliceLast, if_neg (by omega : ¬ cl = 0)]
  · rw [leadingShown_length _ _ hcl]
    omega
  · simp only [trailingShown, if_pos h]
  · rw [trailingShown_length]
    omega

/-- Witness for C6 at concrete inputs with three leading and two trailing
context lines and a window of one line. -/
theorem context_window_truncation_witness :
    1 < (leadingContextOf "a\nb\nc\nX\nd\ne" "a\nb\nc\nY\nd\ne").length ∧
    leadingShown (leadingContextOf "a\nb\nc\nX\nd\ne" "a\nb\nc\nY\nd\ne") 1 =
      (leadingContextOf "a\nb\nc\nX\nd\ne" "a\nb\nc\nY\nd\ne").drop
        ((leadingContextOf "a\nb\nc\nX\nd\ne" "a\nb\nc\nY\nd\ne").length - 1) ∧
    1 < (trailingContextOf "a\nb\nc\nX\nd\ne" "a\nb\nc\nY\nd\ne").length ∧
    trailingShown (trailingContextOf "a\nb\nc\nX\nd\ne" "a\nb\nc\nY\nd\ne") 1 =
      (trailingContextOf "a\nb\nc\nX\nd\ne" "a\nb\nc\nY\nd\ne").take 1 :=
  ⟨by decide,
    ((context_window_truncation "a\nb\nc\nX\nd\ne" "a\nb\nc\nY\nd\ne" 60 1
      (by decide)).1 (by decide)).1,
    by decide,
    ((context_window_truncation "a\nb\nc\nX\nd\ne" "a\nb\nc\nY\nd\ne" 60 1
      (by decide)).2.1 (by decide)).1⟩

/-- Counterexample to C8 as stated: `_truncate` also strips surrounding
whitespace, so a short line with a leading space is not returned unchanged;
and at width 0 a longer line does not come back with exactly 0
characters. -/
theorem truncation_rule_cex :
    truncate " a" 10 = "a" ∧ " a" ≠ "a" ∧
    ¬ (truncate "abc" 0).length = 0 := by decide

/-- C8 (amended): Line truncation rule for widths `≥ 1`: `_truncate` first
replaces embedded newlines by spaces and strips surrounding whitespace; if
the processed text fits in the width it is returned as is, otherwise the
result is the first `width - 1` characters of the processed text followed
by the one-character ellipsis, for exactly `width` characters. -/
theorem truncation_rule (text : String) (w : Int) (hw : 1 ≤ w) :
    (((pyStrip (replaceNewlines text)).length : Int) ≤ w →
      truncate text w = pyStrip (replaceNewlines text)) ∧
    (w < ((pyStrip (replaceNewlines text)).length : Int) →
      truncate text w =
          String.mk ((pyStrip (replaceNewlines text)).data.take (w - 1).toNat ++
            ['…']) ∧
        ((truncate text w).length : Int) = w) := by
  constructor
  · intro h
    simp only [truncate, if_pos h]
  · intro h
    have hneg : ¬ ((pyStrip (replaceNewlines text)).length : Int) ≤ w := by omega
    have h1 : truncate text w =
        pyTakeChars (pyStrip (replaceNewlines text)) (w - 1) ++ "…" := by
      simp only [truncate, if_neg hneg]
    have h2 : pyTakeChars (pyStrip (replaceNewlines text)) (w - 1) =
        String.mk ((pyStrip (replaceNewlines text)).data.take (w - 1).toNat) := by
      unfold pyTakeChars
      rw [if_neg (by omega)]
    have h3 : truncate text w =
        String.mk ((pyStrip (replaceNewlines text)).data.take (w - 1).toNat ++
          ['…']) := by
      rw [h1, h2]
      apply String.ext
      simp
    refine ⟨h3, ?_⟩
    have hlen : (pyStrip (replaceNewlines text)).length =
        (pyStrip (replaceNewlines text)).data.length := rfl
    rw [h3]
    simp only [String.length, List.length_append, List.length_take,
      List.length_cons, List.length_nil]
    rw [hlen] at h
    omega

/-- Witness for C8 at concrete inputs: a short line is returned processed
but otherwise whole, and a long line is cut to width 5 with an ellipsis. -/
theorem truncation_rule_witness :
    ((pyStrip (replaceNewlines "hi")).length : Int) ≤ 50 ∧
    truncate "hi" 50 = pyStrip (replaceNewlines "hi") ∧
    (5 : Int) < ((pyStrip (replaceNewlines "hello world")).length : Int) ∧
    truncate "hello world" 5 =
      String.mk ((pyStrip (replaceNewlines "hello world")).data.take
        ((5 : Int) - 1).toNat ++ ['…']) ∧
    ((truncate "hello world" 5).length : Int) = 5 := by
  refine ⟨by decide, (truncation_rule "hi" 50 (by decide)).1 (by decide),
    by decide, ?_, ?_⟩
  · exact ((truncation_rule "hello world" 5 (by decide)).2 (by decide)).1
  · exact ((truncation_rule "hello world" 5 (by decide)).2 (by decide)).2

/-- Counterexample to C9 as stated: raising the context window from 0 to 1
decreases the number of leading-context lines shown from 2 to 1, because at
window 0 the Python slice `leading[-0:]` keeps every leading line. -/
theorem context_window_monotone_cex :
    (leadingShown (leadingContextOf "a\nb\nX" "a\nb\nY") 1).length <
      (leadingShown (leadingContextOf "a\nb\nX" "a\nb\nY") 0).length := by decide

/-- C9 (amended): Context-window monotonicity for windows `≥ 1`: for a
fixed pair of inputs, increasing `context_lines` from `c1 ≥ 1` to `c2 ≥ c1`
never decreases the number of leading or trailing context lines shown, and
the number shown at `c1` is exactly `min available c1` on both ends.  (From
window 0 to window 1 the leading count can decrease, because at window 0
the Python slice `leading[-0:]` keeps every leading line.) -/
theorem context_window_monotone (old_str new_str : String) (c1 c2 : Nat)
    (h1 : 1 ≤ c1) (h12 : c1 ≤ c2) :
    (leadingShown (leadingContextOf old_str new_str) c1).length ≤
      (leadingShown (leadingContextOf old_str new_str) c2).length ∧
    (trailingShown (trailingContextOf old_str new_str) c1).length ≤
      (trailingShown (trailingContextOf old_str new_str) c2).length ∧
    (leadingShown (leadingContextOf old_str new_str) c1).length =
      min (leadingContextOf old_str new_str).length c1 ∧
    (trailingShown (trailingContextOf old_str new_str) c1).length =
      min (trailingContextOf old_str new_str).length c1 := by
  have hA := leadingShown_length (leadingContextOf old_str new_str) c1 h1
  have hB := leadingShown_length (leadingContextOf old_str new_str) c2 (by omega)
  have hC := trailingShown_length (trailingContextOf old_str new_str) c1
  have hD := trailingShown_length (trailingContextOf old_str new_str) c2
  refine ⟨by omega, by omega, hA, hC⟩

/-- Witness for C9 at concrete inputs with windows 1 and 2. -/
theorem context_window_monotone_witness :
    (leadingShown (leadingContextOf "a\nb\nc\nX\nd\ne" "a\nb\nc\nY\nd\ne")
        1).length ≤
      (leadingShown (leadingContextOf "a\nb\nc\nX\nd\ne" "a\nb\nc\nY\nd\ne")
        2).length ∧
    (leadingShown (leadingContextOf "a\nb\nc\nX\nd\ne" "a\nb\nc\nY\nd\ne")
        1).length =
      min (leadingContextOf "a\nb\nc\nX\nd\ne" "a\nb\nc\nY\nd\ne").length 1 :=
  ⟨(context_window_monotone "a\nb\nc\nX\nd\ne" "a\nb\nc\nY\nd\ne" 1 2
      (by decide) (by decide)).1,
    (context_window_monotone "a\nb\nc\nX\nd\ne" "a\nb\nc\nY\nd\ne" 1 2
      (by decide) (by decide)).2.2.1⟩

/-- Counterexample to C10 as stated: at `context_lines = 0` eleven common
leading lines are all kept (the Python slice `leading[-0:]` is the whole
list), so the output has 13 lines, exceeding the claimed bound
`2 * 0 + 10`. -/
theorem bounded_output_cex :
    (renderDiffBlock "l\nl\nl\nl\nl\nl\nl\nl\nl\nl\nl\nX"
        "l\nl\nl\nl\nl\nl\nl\nl\nl\nl\nl\nY" 60 0).length = 13 ∧
    ¬ (13 ≤ 2 * 0 + 10) := by decide

/-- C10 (amended): Bounded output size for `context_lines ≥ 1`: the list of
display lines returned by `_render_diff_block` has at most
`2 * context_lines + 10` entries — at most `context_lines` leading context
lines, 4 deletion lines plus one marker, 4 addition lines plus one marker,
and `context_lines` trailing context lines, the per-side cap being fixed at
4.  (At `context_lines = 0` the bound fails, because the Python slice
`leading[-0:]` keeps every leading line.) -/
theorem bounded_output (old_str new_str : String) (mw cl : Nat) (hcl : 1 ≤ cl) :
    (renderDiffBlock old_str new_str mw cl).length ≤ 2 * cl + 10 := by
  have h1 : (leadingShown (leadingContextOf old_str new_str) cl).length ≤ cl := by
    rw [leadingShown_length _ _ hcl]
    omega
  have h2 : (trailingShown (trailingContextOf old_str new_str) cl).length ≤ cl := by
    rw [trailingShown_length]
    omega
  have h3 := deletionsOut_length_le (oldChangedOf old_str new_str) mw
  have h4 := additionsOut_length_le (newChangedOf old_str new_str) mw
  have h5 := oldElisionOut_length_le (oldChangedOf old_str new_str)
  have h6 := newElisionOut_length_le (newChangedOf old_str new_str)
  have hm : maxDiffLines = 4 := rfl
  simp only [renderDiffBlock, List.length_append, List.length_map] at *
  omega

/-- Witness for C10 at a concrete input with the default window. -/
theorem bounded_output_witness :
    (renderDiffBlock "a" "b" 60 2).length ≤ 2 * 2 + 10 :=
  bounded_output "a" "b" 60 2 (by decide)

end ConciseDisplay
